import Mathlib

/-!
Verification of the TruAPI repository layer (hexagonal CRUD service).

Shallow embedding of the persistence core:
  - domain entities `User` and `Setting` (src/truapi/domain/entities/),
  - the in-memory user repository (src/truapi/adapters/repositories/user/in_memory.py),
  - the relational user repository's query semantics
    (src/truapi/adapters/repositories/user/sqlalchemy.py),
  - the in-memory settings repository (src/truapi/adapters/repositories/settings/in_memory.py),
  - the user and settings use cases (src/truapi/use_cases/).

Python `Optional` values become `Option`, kwargs filter dictionaries become
either option-field structures (for `get`, whose supported keys are fixed)
or key/value entry lists (for `list`, which iterates the dictionary), and
the class-attribute / instance-attribute store of the in-memory adapter is
modelled explicitly by a two-instance world state.
-/

set_option autoImplicit false

namespace TruAPI

/-- `ID` value object (src/truapi/domain/value_objects/id.py): an immutable
wrapper around a ULID string; equality is value equality on the string. -/
structure ID where
  value : String
deriving DecidableEq, Repr

/-- `User` entity (src/truapi/domain/entities/user.py): id, username, email,
display_name. -/
structure User where
  id : ID
  username : String
  email : String
  display_name : String
deriving DecidableEq, Repr

namespace InMemoryUserRepository

/-- The kwargs filter set accepted by `InMemoryUserRepository.get` /
`exists`. Supported keys are `id` and `username`; `other` stands for any
unsupported keys in the dictionary, which the adapter never reads. -/
structure GetFilters where
  id : Option ID := none
  username : Option String := none
  other : List (String × String) := []
deriving DecidableEq, Repr

/-- The `id` branch of `InMemoryUserRepository.get`:
`(f := filters.get("id")) and f == u.id`. An `ID` dataclass instance is
always truthy, so a present `id` filter is always applied. -/
def idHit (f : GetFilters) (u : User) : Bool :=
  match f.id with
  | some i => decide (i = u.id)
  | none => false

/-- The `username` branch of `InMemoryUserRepository.get`:
`(f := filters.get("username")) and f == u.username`. A present but empty
string is falsy in Python, so it is skipped. -/
def usernameHit (f : GetFilters) (u : User) : Bool :=
  match f.username with
  | some s => decide (s ≠ "") && decide (s = u.username)
  | none => false

/-- `InMemoryUserRepository.get` (in_memory.py lines 16-22): linear scan;
returns the first stored user for which the `id` filter hits or the
`username` filter hits (the two `if` statements are disjunctive). -/
def get (store : List User) (f : GetFilters) : Option User :=
  match store with
  | [] => none
  | u :: rest => if idHit f u then some u else if usernameHit f u then some u else get rest f

/-- A value of the kwargs dictionary passed to `InMemoryUserRepository.list`:
Python `None`, a string, or an `ID`. -/
inductive FVal where
  | vnone
  | vstr (s : String)
  | vid (i : ID)
deriving DecidableEq, Repr

/-- One `(k, v)` check of the filter loop in `InMemoryUserRepository.list`
(in_memory.py lines 28-36): key `"id"` demands `u.id == v` (false whenever
`v` is not an `ID`, including `None`), key `"username"` demands
`u.username == v` (false whenever `v` is not a string, including `None`),
any other key is ignored. -/
def listEntryOk (u : User) (k : String) (v : FVal) : Bool :=
  if k = "id" then
    match v with
    | FVal.vid i => decide (u.id = i)
    | _ => false
  else if k = "username" then
    match v with
    | FVal.vstr s => decide (u.username = s)
    | _ => false
  else true

/-- `InMemoryUserRepository.list` (in_memory.py lines 24-39): an empty
kwargs dictionary returns a copy of the store; otherwise a user is kept
iff every `(k, v)` entry of the dictionary passes `listEntryOk`. -/
def list (store : List User) (filters : List (String × FVal)) : List User :=
  match filters with
  | [] => store
  | _ => store.filter (fun u => filters.all (fun kv => listEntryOk u kv.1 kv.2))

/-- `InMemoryUserRepository.save` (in_memory.py lines 41-46): replace the
first stored user with the same id in place, else append. -/
def save (store : List User) (user : User) : List User :=
  match store with
  | [] => [user]
  | u :: rest => if u.id = user.id then user :: rest else u :: save rest user

/-- `InMemoryUserRepository.exists` (in_memory.py lines 48-49):
`(await self.get(**filters)) is not None`. -/
def existsM (store : List User) (f : GetFilters) : Bool :=
  (get store f).isSome

/-- `InMemoryUserRepository.delete` (in_memory.py lines 51-52):
`self.store = [u for u in self.store if u.id != user_id]`. The function
below is the list built by the comprehension; the instance-attribute
rebinding it is assigned to is modelled by `MemWorld.delete1`. -/
def delete (store : List User) (user_id : ID) : List User :=
  store.filter (fun u => !decide (u.id = user_id))

end InMemoryUserRepository

/-- The in-memory adapter declares `store: List[User] = []` as a class
attribute, so distinct repository instances resolve `self.store` to the
class attribute until an instance attribute shadows it. `MemWorld` is the
state visible to two instances `r1` and `r2`: the class-level list and the
optional instance attribute of each. -/
structure MemWorld where
  classStore : List User
  inst1 : Option (List User)
  inst2 : Option (List User)
deriving DecidableEq, Repr

namespace MemWorld

/-- Python attribute lookup of `self.store` on `r1`: the instance
attribute when present, else the class attribute. -/
def read1 (w : MemWorld) : List User :=
  w.inst1.getD w.classStore

/-- Python attribute lookup of `self.store` on `r2`. -/
def read2 (w : MemWorld) : List User :=
  w.inst2.getD w.classStore

/-- `r1.save(u)`: `save` mutates the list object `self.store` resolves to
in place (`self.store[i] = user` / `self.store.append(user)`), so it
updates the instance list when one exists and the class list otherwise. -/
def save1 (w : MemWorld) (u : User) : MemWorld :=
  match w.inst1 with
  | some l => { w with inst1 := some (InMemoryUserRepository.save l u) }
  | none => { w with classStore := InMemoryUserRepository.save w.classStore u }

/-- `r1.delete(x)`: `self.store = [...]` is a `setattr`, which always
creates or overwrites the INSTANCE attribute of `r1` with a fresh list;
the class attribute is never modified. -/
def delete1 (w : MemWorld) (x : ID) : MemWorld :=
  { w with inst1 := some (InMemoryUserRepository.delete w.read1 x) }

end MemWorld

/-- The process-start world: empty class store, no instance attributes. -/
def initialWorld : MemWorld :=
  { classStore := [], inst1 := none, inst2 := none }

namespace SQLAlchemyUserRepository

/-- The kwargs filter set handed to `_apply_filters`
(sqlalchemy.py lines 39-48). Keys name `users` table columns; a key whose
value is `None` is skipped (`if value is None: continue`), and `other`
stands for keys that are not columns (`getattr(UserRow, key, None)` is
`None`), which are skipped as well. -/
structure SqlFilters where
  id : Option ID := none
  username : Option String := none
  email : Option String := none
  display_name : Option String := none
  other : List (String × String) := []
deriving DecidableEq, Repr

/-- The conjunction of the `WHERE column == value` predicates produced by
`_apply_filters`: one predicate per present, non-`None` column filter.
The `id` column stores `str(user.id)`, compared with `str(value)`. -/
def sqlMatches (f : SqlFilters) (u : User) : Bool :=
  (match f.id with | some i => decide (u.id = i) | none => true)
  && (match f.username with | some s => decide (u.username = s) | none => true)
  && (match f.email with | some s => decide (u.email = s) | none => true)
  && (match f.display_name with | some s => decide (u.display_name = s) | none => true)

/-- `SQLAlchemyUserRepository.get`: `SELECT * FROM users WHERE <filters>
LIMIT 1` — some row satisfying every predicate, if any; modelled as the
first matching row of the table. -/
def get (table : List User) (f : SqlFilters) : Option User :=
  table.find? (fun u => sqlMatches f u)

/-- `SQLAlchemyUserRepository.exists` (sqlalchemy.py lines 75-79):
`SELECT id FROM users WHERE <filters> LIMIT 1` returned a row iff some
row of the table satisfies every predicate. -/
def existsM (table : List User) (f : SqlFilters) : Bool :=
  table.any (fun u => sqlMatches f u)

/-- `SQLAlchemyUserRepository.save` (sqlalchemy.py lines 69-73):
`session.merge` upserts by the primary key `id` — update the matching row
in place when the key exists, else insert. -/
def save (table : List User) (user : User) : List User :=
  if table.any (fun r => decide (r.id = user.id)) then
    table.map (fun r => if r.id = user.id then user else r)
  else
    table ++ [user]

/-- `SQLAlchemyUserRepository.delete` (sqlalchemy.py lines 81-85):
`DELETE FROM users WHERE id = :x`; zero affected rows is not an error. -/
def delete (table : List User) (x : ID) : List User :=
  table.filter (fun u => !decide (u.id = x))

end SQLAlchemyUserRepository

/-- `SettingsScope` enum (src/truapi/domain/entities/settings.py). -/
inductive SettingsScope where
  | app
  | user
deriving DecidableEq, Repr

/-- `Setting` entity (src/truapi/domain/entities/settings.py): id, scope,
key, value, optional owning user id. -/
structure Setting where
  id : ID
  scope : SettingsScope
  key : String
  value : String
  user_id : Option ID := none
deriving DecidableEq, Repr

namespace Setting

/-- `Setting.app(key, value)` (settings.py): an APP-scope setting with a
fresh ULID. Fresh-ID generation is external entropy, so the generated id
is an explicit argument here. -/
def app (fresh : ID) (key value : String) : Setting :=
  { id := fresh, scope := SettingsScope.app, key := key, value := value, user_id := none }

/-- `Setting.user(user_id, key, value)` (settings.py): a USER-scope
setting with a fresh ULID, owned by `user_id`. -/
def user (fresh : ID) (user_id : ID) (key value : String) : Setting :=
  { id := fresh, scope := SettingsScope.user, key := key, value := value, user_id := some user_id }

end Setting

namespace InMemorySettingsRepository

/-- The `_items: Dict[str, Setting]` backing dictionary, keyed by
`str(setting.id)`, in insertion order (Python dicts preserve it). -/
abbrev Items := List (String × Setting)

/-- `InMemorySettingsRepository.save` (settings/in_memory.py lines 12-13):
`self._items[str(setting.id)] = setting` — replace in place when the key
exists, else append. -/
def save (items : Items) (s : Setting) : Items :=
  match items with
  | [] => [(s.id.value, s)]
  | (k, v) :: rest => if k = s.id.value then (k, s) :: rest else (k, v) :: save rest s

/-- The skip conditions of the scan in `InMemorySettingsRepository.get`
(settings/in_memory.py lines 15-24): scope must match, key must match,
and under USER scope the owning user id must match. -/
def getMatches (scope : SettingsScope) (key : String) (user_id : Option ID) (s : Setting) : Bool :=
  decide (s.scope = scope) && decide (s.key = key)
    && (if scope = SettingsScope.user then decide (s.user_id = user_id) else true)

/-- `InMemorySettingsRepository.get`: first match of the scan over
`self._items.values()`, or `None`. -/
def get (items : Items) (scope : SettingsScope) (key : String) (user_id : Option ID) :
    Option Setting :=
  (List.find? (fun p => getMatches scope key user_id p.2) items).map (fun p => p.2)

end InMemorySettingsRepository

namespace UseCases

/-- `UserNotFoundError` (src/truapi/use_cases/exceptions.py). -/
inductive UCError where
  | userNotFound
deriving DecidableEq, Repr

/-- The filter dictionary `{"id": user_id}` the user use cases pass to
`repo.get` / `repo.exists`. -/
def idFilter (x : ID) : InMemoryUserRepository.GetFilters :=
  { id := some x }

/-- `use_cases.user.get.get(user_id, repo)` (get.py lines 7-11) against the
in-memory repository: raise `UserNotFoundError` when `repo.get(id=x)` is
`None`, else return the user. `repo.get` performs no mutation, so the
store is not part of the result. -/
def getUC (x : ID) (store : List User) : Except UCError User :=
  match InMemoryUserRepository.get store (idFilter x) with
  | none => Except.error UCError.userNotFound
  | some u => Except.ok u

/-- `UpdateInput` (update.py): optional display_name and email. -/
structure UpdateInput where
  display_name : Option String := none
  email : Option String := none
deriving DecidableEq, Repr

/-- The two `if input.<field> is not None` assignments of `update`
(update.py lines 20-23). -/
def applyUpdate (input : UpdateInput) (u : User) : User :=
  let u1 := match input.display_name with
            | some d => { u with display_name := d }
            | none => u
  match input.email with
  | some e => { u1 with email := e }
  | none => u1

/-- `use_cases.user.update.update(user_id, input, repo)` (update.py lines
16-25) against the in-memory repository: fetch by id, raise
`UserNotFoundError` (store untouched) when absent, else assign the present
input fields and persist via `repo.save`. -/
def updateUC (x : ID) (input : UpdateInput) (store : List User) :
    Except UCError User × List User :=
  match InMemoryUserRepository.get store (idFilter x) with
  | none => (Except.error UCError.userNotFound, store)
  | some u =>
      let u1 := applyUpdate input u
      (Except.ok u1, InMemoryUserRepository.save store u1)

/-- `use_cases.user.delete.delete(user_id, repo)` (delete.py lines 6-10)
against the in-memory repository: raise `UserNotFoundError` (store
untouched) when `repo.exists(id=x)` is false, else `repo.delete(x)`. -/
def deleteUC (x : ID) (store : List User) : Except UCError Unit × List User :=
  if InMemoryUserRepository.existsM store (idFilter x) then
    (Except.ok (), InMemoryUserRepository.delete store x)
  else
    (Except.error UCError.userNotFound, store)

/-- `use_cases.settings.set.set_setting` (set.py lines 8-11): build a
USER-scope setting when scope is USER and a user id is supplied, else an
APP-scope setting; always `repo.save` a fresh entity. The fresh ULID is
an explicit argument. -/
def set_setting (items : InMemorySettingsRepository.Items) (scope : SettingsScope)
    (key value : String) (user_id : Option ID) (fresh : ID) :
    Setting × InMemorySettingsRepository.Items :=
  let s := match scope, user_id with
           | SettingsScope.user, some uid => Setting.user fresh uid key value
           | _, _ => Setting.app fresh key value
  (s, InMemorySettingsRepository.save items s)

/-- `use_cases.settings.get.get_setting` (get.py lines 9-10): delegates to
`repo.get`. -/
def get_setting (items : InMemorySettingsRepository.Items) (scope : SettingsScope)
    (key : String) (user_id : Option ID) : Option Setting :=
  InMemorySettingsRepository.get items scope key user_id

end UseCases

/-- Modelled from the spec: `find_all(skip, limit)` of the user repository
in module `truapi.users.db`, which src/tests/test_repositories.py
exercises but which is absent from src/. Spec §8: "filtered list with
skip/limit semantics partitions the set without overlap or omission (page
boundaries respected exactly)" — skip the first `skip` records, return at
most `limit` of the rest. -/
def findAll (store : List User) (skip limit : Nat) : List User :=
  (store.drop skip).take limit

/-! ### Concrete fixtures used by witnesses and counterexamples -/

/-- A concrete user. -/
def uAlice : User :=
  { id := { value := "01A" }, username := "alice", email := "alice@example.com",
    display_name := "Alice" }

/-- A concrete user distinct from `uAlice`. -/
def uBob : User :=
  { id := { value := "01B" }, username := "bob", email := "bob@example.com",
    display_name := "Bob" }

/-- Three more users, for the five-record pagination scenario. -/
def uCarol : User :=
  { id := { value := "01C" }, username := "carol", email := "carol@example.com",
    display_name := "Carol" }

def uDave : User :=
  { id := { value := "01D" }, username := "dave", email := "dave@example.com",
    display_name := "Dave" }

def uEve : User :=
  { id := { value := "01E" }, username := "eve", email := "eve@example.com",
    display_name := "Eve" }

/-- The filter dictionary `{"id": uAlice.id, "username": "bob"}`. -/
def mixedFilters : InMemoryUserRepository.GetFilters :=
  { id := some { value := "01A" }, username := some "bob" }

/-- The world after `r1.save(uAlice)` then `r1.delete(uAlice.id)` starting
from the process-start state: the class store still holds `uAlice`, while
`r1` now owns a private, empty instance list. -/
def c3World : MemWorld :=
  MemWorld.delete1 (MemWorld.save1 initialWorld uAlice) uAlice.id

/-! ### Helper lemmas about the in-memory user repository -/

/-- With an id-only filter, `get` is `find?` on id equality. -/
theorem get_idFilter_eq_find (s : List User) (x : ID) :
    InMemoryUserRepository.get s (UseCases.idFilter x)
      = s.find? (fun u => decide (u.id = x)) := by
  induction s with
  | nil => rfl
  | cons u rest ih =>
      by_cases h : u.id = x
      · simp [InMemoryUserRepository.get, InMemoryUserRepository.idHit, UseCases.idFilter,
          List.find?, h]
      · have h' : ¬ (x = u.id) := fun hx => h hx.symm
        simp only [UseCases.idFilter] at ih
        simp [InMemoryUserRepository.get, InMemoryUserRepository.idHit,
          InMemoryUserRepository.usernameHit, UseCases.idFilter, List.find?, h, h', ih]

/-- `get` with an id-only filter is `none` iff no stored user has that id. -/
theorem get_idFilter_eq_none_iff (s : List User) (x : ID) :
    InMemoryUserRepository.get s (UseCases.idFilter x) = none ↔ ∀ u ∈ s, u.id ≠ x := by
  rw [get_idFilter_eq_find]
  simp

/-- `get` with an id-only filter returns a stored user with that id. -/
theorem get_idFilter_eq_some (s : List User) (x : ID) (u : User)
    (h : InMemoryUserRepository.get s (UseCases.idFilter x) = some u) :
    u ∈ s ∧ u.id = x := by
  rw [get_idFilter_eq_find] at h
  refine ⟨List.mem_of_find?_eq_some h, ?_⟩
  have := List.find?_some h
  simpa using this

/-- `save` on a store with no matching id appends. -/
theorem save_of_forall_ne (s : List User) (u : User) (h : ∀ v ∈ s, v.id ≠ u.id) :
    InMemoryUserRepository.save s u = s ++ [u] := by
  induction s with
  | nil => rfl
  | cons a rest ih =>
      have ha : a.id ≠ u.id := h a (List.mem_cons_self a rest)
      simp [InMemoryUserRepository.save, ha,
        ih (fun v hv => h v (List.mem_cons_of_mem a hv))]

/-- `save` on a store containing the id keeps the length (replacement). -/
theorem length_save_of_mem (s : List User) (u : User) (h : ∃ v ∈ s, v.id = u.id) :
    (InMemoryUserRepository.save s u).length = s.length := by
  induction s with
  | nil => simp at h
  | cons a rest ih =>
      by_cases ha : a.id = u.id
      · simp [InMemoryUserRepository.save, ha]
      · obtain ⟨v, hv, hvid⟩ := h
        rcases List.mem_cons.1 hv with rfl | hv'
        · exact absurd hvid ha
        · simp [InMemoryUserRepository.save, ha, ih ⟨v, hv', hvid⟩]

/-- Every member of `save s u` is `u` or a member of `s`. -/
theorem mem_of_mem_save (s : List User) (u v : User)
    (h : v ∈ InMemoryUserRepository.save s u) : v = u ∨ v ∈ s := by
  induction s with
  | nil => simpa [InMemoryUserRepository.save] using h
  | cons a rest ih =>
      by_cases ha : a.id = u.id
      · simp only [InMemoryUserRepository.save, if_pos ha] at h
        rcases List.mem_cons.1 h with rfl | h'
        · exact Or.inl rfl
        · exact Or.inr (List.mem_cons_of_mem a h')
      · simp only [InMemoryUserRepository.save, if_neg ha] at h
        rcases List.mem_cons.1 h with rfl | h'
        · exact Or.inr (List.mem_cons_self v rest)
        · rcases ih h' with hu | hs
          · exact Or.inl hu
          · exact Or.inr (List.mem_cons_of_mem a hs)

/-- A member of `s` whose id differs from `u.id` survives `save s u`. -/
theorem mem_save_of_mem_of_ne (s : List User) (u v : User)
    (hv : v ∈ s) (hne : v.id ≠ u.id) : v ∈ InMemoryUserRepository.save s u := by
  induction s with
  | nil => simp at hv
  | cons a rest ih =>
      by_cases ha : a.id = u.id
      · simp only [InMemoryUserRepository.save, if_pos ha]
        rcases List.mem_cons.1 hv with rfl | hv'
        · exact absurd ha hne
        · exact List.mem_cons_of_mem u hv'
      · simp only [InMemoryUserRepository.save, if_neg ha]
        rcases List.mem_cons.1 hv with rfl | hv'
        · exact List.mem_cons_self v _
        · exact List.mem_cons_of_mem a (ih hv')

/-- `u` itself is always in `save s u`. -/
theorem mem_save_self (s : List User) (u : User) :
    u ∈ InMemoryUserRepository.save s u := by
  induction s with
  | nil => simp [InMemoryUserRepository.save]
  | cons a rest ih =>
      by_cases ha : a.id = u.id
      · simp [InMemoryUserRepository.save, ha]
      · simp only [InMemoryUserRepository.save, if_neg ha]
        exact List.mem_cons_of_mem a ih

/-- On a store with no duplicate ids, exactly one entity of `save s u` has
id `u.id`, and it is `u` itself. -/
theorem filter_save_of_nodup (s : List User) (u : User)
    (h : (s.map User.id).Nodup) :
    (InMemoryUserRepository.save s u).filter (fun v => decide (v.id = u.id)) = [u] := by
  induction s with
  | nil => simp [InMemoryUserRepository.save]
  | cons a rest ih =>
      rw [List.map_cons, List.nodup_cons] at h
      by_cases ha : a.id = u.id
      · have hrest : ∀ v ∈ rest, ¬ v.id = u.id := by
          intro v hv hvid
          exact h.1 (ha ▸ hvid ▸ List.mem_map_of_mem User.id hv)
        simp only [InMemoryUserRepository.save, if_pos ha, List.filter]
        simp only [decide_eq_true_eq, decide_True, if_pos rfl]
        have : rest.filter (fun v => decide (v.id = u.id)) = [] :=
          List.filter_eq_nil_iff.2 (by simpa using hrest)
        simp [this]
      · simp only [InMemoryUserRepository.save, if_neg ha, List.filter]
        have : (decide (a.id = u.id)) = false := by simpa using ha
        simp [this, ih h.2]

/-- `save` preserves the no-duplicate-ids invariant. -/
theorem nodup_save (s : List User) (u : User) (h : (s.map User.id).Nodup) :
    ((InMemoryUserRepository.save s u).map User.id).Nodup := by
  induction s with
  | nil => simp [InMemoryUserRepository.save]
  | cons a rest ih =>
      rw [List.map_cons, List.nodup_cons] at h
      by_cases ha : a.id = u.id
      · simp only [InMemoryUserRepository.save, if_pos ha, List.map_cons, List.nodup_cons]
        exact ⟨ha ▸ h.1, h.2⟩
      · simp only [InMemoryUserRepository.save, if_neg ha, List.map_cons, List.nodup_cons]
        refine ⟨?_, ih h.2⟩
        intro hmem
        rcases List.mem_map.1 hmem with ⟨v, hv, hvid⟩
        rcases mem_of_mem_save rest u v hv with rfl | hv'
        · exact ha hvid.symm
        · exact h.1 (hvid ▸ List.mem_map_of_mem User.id hv')

/-- On a store with no duplicate ids that contains the id, `save`
rewrites exactly the matching entry, pointwise. -/
theorem save_eq_map_of_nodup (s : List User) (u : User)
    (hnd : (s.map User.id).Nodup) (hmem : ∃ v ∈ s, v.id = u.id) :
    InMemoryUserRepository.save s u = s.map (fun v => if v.id = u.id then u else v) := by
  induction s with
  | nil => simp at hmem
  | cons a rest ih =>
      rw [List.map_cons, List.nodup_cons] at hnd
      by_cases ha : a.id = u.id
      · have hrest : ∀ v ∈ rest, ¬ v.id = u.id := by
          intro v hv hvid
          exact hnd.1 (ha ▸ hvid ▸ List.mem_map_of_mem User.id hv)
        have : rest.map (fun v => if v.id = u.id then u else v) = rest := by
          rw [List.map_congr_left (fun v hv => if_neg (hrest v hv)), List.map_id']
        simp [InMemoryUserRepository.save, ha, this]
      · obtain ⟨v, hv, hvid⟩ := hmem
        rcases List.mem_cons.1 hv with rfl | hv'
        · exact absurd hvid ha
        · simp [InMemoryUserRepository.save, ha, ih hnd.2 ⟨v, hv', hvid⟩]

/-- `delete` also preserves the no-duplicate-ids invariant, so every store
reachable from the empty one through `save`/`delete` satisfies it. -/
theorem nodup_delete (s : List User) (x : ID) (h : (s.map User.id).Nodup) :
    ((InMemoryUserRepository.delete s x).map User.id).Nodup :=
  h.sublist ((List.filter_sublist s).map User.id)

/-- When `filter p` of a list is the singleton `[a]`, `find? p` finds `a`. -/
theorem find_eq_of_filter_eq_singleton {α : Type} (l : List α) (p : α → Bool) (a : α)
    (h : l.filter p = [a]) : l.find? p = some a := by
  induction l with
  | nil => simp at h
  | cons x xs ih =>
      cases hp : p x with
      | true =>
          rw [List.filter_cons_of_pos hp] at h
          rcases List.cons_eq_cons.1 h with ⟨rfl, _⟩
          exact List.find?_cons_of_pos xs hp
      | false =>
          rw [List.filter_cons_of_neg (by simp [hp])] at h
          rw [List.find?_cons_of_neg _ (by simp [hp])]
          exact ih h

/-- On a table with no duplicate ids (the primary-key invariant), the
relational `merge`-based save computes the same store as the in-memory
replace-or-append save. -/
theorem sql_save_eq_save (s : List User) (u : User) (hnd : (s.map User.id).Nodup) :
    SQLAlchemyUserRepository.save s u = InMemoryUserRepository.save s u := by
  by_cases h : ∃ v ∈ s, v.id = u.id
  · rw [save_eq_map_of_nodup s u hnd h]
    have hany : s.any (fun r => decide (r.id = u.id)) = true := by
      simp only [List.any_eq_true, decide_eq_true_eq]
      exact h
    simp [SQLAlchemyUserRepository.save, hany]
  · push_neg at h
    rw [save_of_forall_ne s u h]
    have hany : s.any (fun r => decide (r.id = u.id)) = false := by
      simp only [List.any_eq_false, decide_eq_true_eq]
      exact h
    simp [SQLAlchemyUserRepository.save, hany]

/-- The `id` branch of `get` hits iff the filter carries exactly the
user's id. -/
theorem idHit_iff (f : InMemoryUserRepository.GetFilters) (u : User) :
    InMemoryUserRepository.idHit f u = true ↔ f.id = some u.id := by
  cases hf : f.id <;> simp [InMemoryUserRepository.idHit, hf, eq_comm]

/-- The `username` branch of `get` hits iff the filter carries exactly the
user's username and that username is a truthy (non-empty) string. -/
theorem usernameHit_iff (f : InMemoryUserRepository.GetFilters) (u : User) :
    InMemoryUserRepository.usernameHit f u = true ↔
      (f.username = some u.username ∧ u.username ≠ "") := by
  cases hf : f.username with
  | none => simp [InMemoryUserRepository.usernameHit, hf]
  | some s =>
      simp only [InMemoryUserRepository.usernameHit, hf, Bool.and_eq_true,
        decide_eq_true_eq, Option.some.injEq]
      constructor
      · rintro ⟨h1, rfl⟩
        exact ⟨rfl, h1⟩
      · rintro ⟨rfl, h2⟩
        exact ⟨h2, rfl⟩

/-- A user returned by `get` is a stored user on which one of the two
filter branches hit. -/
theorem get_eq_some_hit (s : List User) (f : InMemoryUserRepository.GetFilters) (u : User)
    (h : InMemoryUserRepository.get s f = some u) :
    u ∈ s ∧ (InMemoryUserRepository.idHit f u = true ∨
      InMemoryUserRepository.usernameHit f u = true) := by
  induction s with
  | nil => simp [InMemoryUserRepository.get] at h
  | cons a rest ih =>
      rw [InMemoryUserRepository.get] at h
      by_cases h1 : InMemoryUserRepository.idHit f a = true
      · rw [if_pos h1] at h
        obtain rfl := Option.some.inj h
        exact ⟨List.mem_cons_self a rest, Or.inl h1⟩
      · rw [if_neg h1] at h
        by_cases h2 : InMemoryUserRepository.usernameHit f a = true
        · rw [if_pos h2] at h
          obtain rfl := Option.some.inj h
          exact ⟨List.mem_cons_self a rest, Or.inr h2⟩
        · rw [if_neg h2] at h
          obtain ⟨hmem, hhit⟩ := ih h
          exact ⟨List.mem_cons_of_mem a hmem, hhit⟩

/-- `get` returns `None` iff neither filter branch hits any stored user. -/
theorem get_eq_none_iff_no_hit (s : List User) (f : InMemoryUserRepository.GetFilters) :
    InMemoryUserRepository.get s f = none ↔
      ∀ u ∈ s, ¬ (InMemoryUserRepository.idHit f u = true ∨
        InMemoryUserRepository.usernameHit f u = true) := by
  induction s with
  | nil => simp [InMemoryUserRepository.get]
  | cons a rest ih =>
      rw [InMemoryUserRepository.get]
      by_cases h1 : InMemoryUserRepository.idHit f a = true
      · simp [h1]
      · by_cases h2 : InMemoryUserRepository.usernameHit f a = true
        · simp [h1, h2]
        · simp [h1, h2, ih]

/-- `get` never reads unsupported filter keys. -/
theorem get_ignores_unsupported (s : List User) (i : Option ID) (n : Option String)
    (o o' : List (String × String)) :
    InMemoryUserRepository.get s { id := i, username := n, other := o }
      = InMemoryUserRepository.get s { id := i, username := n, other := o' } := by
  induction s with
  | nil => rfl
  | cons a rest ih =>
      simp only [InMemoryUserRepository.get]
      rw [ih]
      rfl

/-! ### Claim theorems -/

/-- Claim C1: the user repository's `save` is an upsert keyed by id. On any
store satisfying the no-duplicate-ids invariant: after `save s u` exactly
one stored entity has id `u.id` and it is `u` itself (all fields); every
other entity is preserved in both directions; when the id was present the
store keeps its length (replace in place), otherwise `u` is appended; the
invariant is preserved; saving a second user with the same id makes `get`
by that id return only the latest values; and the relational adapter's
merge-based save computes the same store. -/
theorem save_is_upsert_by_id (s : List User) (u : User)
    (hnd : (s.map User.id).Nodup) :
    ((InMemoryUserRepository.save s u).filter (fun v => decide (v.id = u.id)) = [u]) ∧
    (∀ v ∈ InMemoryUserRepository.save s u, v.id ≠ u.id → v ∈ s) ∧
    (∀ v ∈ s, v.id ≠ u.id → v ∈ InMemoryUserRepository.save s u) ∧
    ((∃ v ∈ s, v.id = u.id) → (InMemoryUserRepository.save s u).length = s.length) ∧
    ((∀ v ∈ s, v.id ≠ u.id) → InMemoryUserRepository.save s u = s ++ [u]) ∧
    (((InMemoryUserRepository.save s u).map User.id).Nodup) ∧
    (∀ u2 : User, u2.id = u.id →
      InMemoryUserRepository.get
        (InMemoryUserRepository.save (InMemoryUserRepository.save s u) u2)
        (UseCases.idFilter u2.id) = some u2) ∧
    (SQLAlchemyUserRepository.save s u = InMemoryUserRepository.save s u) := by
  refine ⟨filter_save_of_nodup s u hnd, ?_, ?_, length_save_of_mem s u,
    save_of_forall_ne s u, nodup_save s u hnd, ?_, sql_save_eq_save s u hnd⟩
  · intro v hv hne
    rcases mem_of_mem_save s u v hv with rfl | hs
    · exact absurd rfl hne
    · exact hs
  · intro v hv hne
    exact mem_save_of_mem_of_ne s u v hv hne
  · intro u2 h2
    rw [get_idFilter_eq_find]
    exact find_eq_of_filter_eq_singleton _ _ _
      (filter_save_of_nodup (InMemoryUserRepository.save s u) u2 (nodup_save s u hnd))

/-- Witness for C1 at a concrete input: the empty store has no duplicate
ids, and saving `uAlice` yields exactly one entity with her id. -/
theorem save_is_upsert_by_id_witness :
    (([] : List User).map User.id).Nodup ∧
    (InMemoryUserRepository.save [] uAlice).filter
      (fun v => decide (v.id = uAlice.id)) = [uAlice] :=
  ⟨by decide, (save_is_upsert_by_id [] uAlice (by decide)).1⟩

/-- Claim C7: `exists(filters)` is extensionally `get(filters) is present`,
for the in-memory adapter (where it is so by definition) and for the
relational adapter (where a `SELECT id ... LIMIT 1` probe returns a row
iff the `SELECT * ... LIMIT 1` of `get` does). -/
theorem exists_iff_get_present (s : List User) (f : InMemoryUserRepository.GetFilters)
    (t : List User) (g : SQLAlchemyUserRepository.SqlFilters) :
    InMemoryUserRepository.existsM s f = (InMemoryUserRepository.get s f).isSome ∧
    SQLAlchemyUserRepository.existsM t g = (SQLAlchemyUserRepository.get t g).isSome := by
  refine ⟨rfl, ?_⟩
  induction t with
  | nil => rfl
  | cons a l ih =>
      cases h : SQLAlchemyUserRepository.sqlMatches g a with
      | true =>
          simp [SQLAlchemyUserRepository.existsM, SQLAlchemyUserRepository.get,
            List.find?_cons_of_pos _ h, h]
      | false =>
          simp only [SQLAlchemyUserRepository.existsM, SQLAlchemyUserRepository.get,
            List.any_cons, h, Bool.false_or] at ih ⊢
          rw [List.find?_cons_of_neg _ (by simp [h])]
          exact ih

/-- Claim C6: repository-level `delete` is total; deleting an absent id
leaves the store unchanged (in-memory and relational), and `get` by the
deleted id returns absent after the call — and already did before it when
the id was absent. -/
theorem delete_total_and_noop_when_absent (s : List User) (x : ID) :
    ((∀ u ∈ s, u.id ≠ x) → InMemoryUserRepository.delete s x = s) ∧
    (InMemoryUserRepository.get (InMemoryUserRepository.delete s x)
      (UseCases.idFilter x) = none) ∧
    ((∀ u ∈ s, u.id ≠ x) → InMemoryUserRepository.get s (UseCases.idFilter x) = none) ∧
    ((∀ u ∈ s, u.id ≠ x) → SQLAlchemyUserRepository.delete s x = s) ∧
    (SQLAlchemyUserRepository.get (SQLAlchemyUserRepository.delete s x)
      { id := some x } = none) := by
    refine ⟨?_, ?_, ?_, ?_, ?_⟩
    · intro h
      exact List.filter_eq_self.2 (fun u hu => by simpa using h u hu)
    · rw [get_idFilter_eq_none_iff]
      intro u hu
      have := (List.mem_filter.1 hu).2
      simpa using this
    · intro h
      rw [get_idFilter_eq_none_iff]
      exact h
    · intro h
      exact List.filter_eq_self.2 (fun u hu => by simpa using h u hu)
    · rw [SQLAlchemyUserRepository.get, List.find?_eq_none]
      intro u hu hmatch
      have hne : ¬ u.id = x := by simpa using (List.mem_filter.1 hu).2
      have : u.id = x := by
        simpa [SQLAlchemyUserRepository.sqlMatches] using hmatch
      exact hne this

/-- Witness for C6 at a concrete input: deleting `uBob.id` from the store
`[uAlice]`, where it is absent, is a no-op. -/
theorem delete_total_and_noop_when_absent_witness :
    (∀ u ∈ [uAlice], u.id ≠ uBob.id) ∧
    InMemoryUserRepository.delete [uAlice] uBob.id = [uAlice] :=
  ⟨by decide, (delete_total_and_noop_when_absent [uAlice] uBob.id).1 (by decide)⟩

/-- Claim C10: whenever the kwargs dictionary passed to the in-memory
`list` contains the entry `username=None` — which the HTTP `GET /users`
endpoint always produces when no `username` query parameter is given —
the result is empty for every store, because the known key `username` with
value `None` is applied as a must-equal predicate that no user's string
username can satisfy. -/
theorem list_username_none_returns_empty (s : List User)
    (fs : List (String × InMemoryUserRepository.FVal))
    (h : ("username", InMemoryUserRepository.FVal.vnone) ∈ fs) :
    InMemoryUserRepository.list s fs = [] := by
  cases fs with
  | nil => simp at h
  | cons kv rest =>
      simp only [InMemoryUserRepository.list]
      apply List.filter_eq_nil_iff.2
      intro u _
      simp only [List.all_eq_true, not_forall]
      refine ⟨("username", InMemoryUserRepository.FVal.vnone), h, ?_⟩
      simp [InMemoryUserRepository.listEntryOk]

/-- Claim C2 is false as stated: the in-memory `get` applies the supplied
filters disjunctively. With the store `[uAlice]` and the filter set
`{id: uAlice.id, username: "bob"}`, `get` returns `uAlice`, whose username
is not `"bob"` — the returned user does not match every supplied filter. -/
theorem get_conjunctive_filters_counterexample :
    InMemoryUserRepository.get [uAlice] mixedFilters = some uAlice ∧
    mixedFilters.id = some uAlice.id ∧
    mixedFilters.username = some "bob" ∧
    uAlice.username ≠ "bob" := by
  refine ⟨by decide, by decide, by decide, by decide⟩

/-- Claim C2 (amended): whenever the in-memory `get(filters)` returns a
user, that user is stored and matches AT LEAST ONE supplied filter (its id
equals the id filter, or its username equals a non-empty username filter);
`get` returns absent exactly when no stored user matches ANY supplied
filter in that sense; and unsupported filter keys are ignored. -/
theorem get_matches_some_supplied_filter (s : List User)
    (f : InMemoryUserRepository.GetFilters) :
    (∀ u, InMemoryUserRepository.get s f = some u →
      u ∈ s ∧ (f.id = some u.id ∨ (f.username = some u.username ∧ u.username ≠ ""))) ∧
    (InMemoryUserRepository.get s f = none ↔
      ∀ u ∈ s, ¬ (f.id = some u.id ∨ (f.username = some u.username ∧ u.username ≠ ""))) ∧
    (∀ o' : List (String × String),
      InMemoryUserRepository.get s { f with other := o' }
        = InMemoryUserRepository.get s f) := by
  refine ⟨?_, ?_, ?_⟩
  · intro u h
    obtain ⟨hmem, hhit⟩ := get_eq_some_hit s f u h
    refine ⟨hmem, ?_⟩
    rcases hhit with h1 | h2
    · exact Or.inl ((idHit_iff f u).1 h1)
    · exact Or.inr ((usernameHit_iff f u).1 h2)
  · rw [get_eq_none_iff_no_hit]
    constructor
    · intro h u hu hcontra
      refine h u hu ?_
      rcases hcontra with h1 | h2
      · exact Or.inl ((idHit_iff f u).2 h1)
      · exact Or.inr ((usernameHit_iff f u).2 h2)
    · intro h u hu hcontra
      refine h u hu ?_
      rcases hcontra with h1 | h2
      · exact Or.inl ((idHit_iff f u).1 h1)
      · exact Or.inr ((usernameHit_iff f u).1 h2)
  · intro o'
    exact get_ignores_unsupported s f.id f.username o' f.other

/-- Witness for amended C2 at a concrete input: `get` on `[uAlice]` with
the mixed filter set returns `uAlice`, which matches the id filter. -/
theorem get_matches_some_supplied_filter_witness :
    uAlice ∈ [uAlice] ∧
    (mixedFilters.id = some uAlice.id ∨
      (mixedFilters.username = some uAlice.username ∧ uAlice.username ≠ "")) :=
  (get_matches_some_supplied_filter [uAlice] mixedFilters).1 uAlice (by decide)

/-- Claim C4: the `get`, `update` and `delete` use cases raise
`UserNotFound` exactly when the repository holds no user with the target
id, and whenever they raise, the repository state is unchanged (`get`
performs no mutation at all; `update` and `delete` return the store they
were given). -/
theorem use_cases_not_found_iff_absent (s : List User) (x : ID)
    (inp : UseCases.UpdateInput) :
    (UseCases.getUC x s = Except.error UseCases.UCError.userNotFound ↔
      ∀ u ∈ s, u.id ≠ x) ∧
    ((UseCases.updateUC x inp s).1 = Except.error UseCases.UCError.userNotFound ↔
      ∀ u ∈ s, u.id ≠ x) ∧
    ((UseCases.updateUC x inp s).1 = Except.error UseCases.UCError.userNotFound →
      (UseCases.updateUC x inp s).2 = s) ∧
    ((UseCases.deleteUC x s).1 = Except.error UseCases.UCError.userNotFound ↔
      ∀ u ∈ s, u.id ≠ x) ∧
    ((UseCases.deleteUC x s).1 = Except.error UseCases.UCError.userNotFound →
      (UseCases.deleteUC x s).2 = s) := by
  cases hg : InMemoryUserRepository.get s (UseCases.idFilter x) with
  | none =>
      have habs : ∀ u ∈ s, u.id ≠ x := (get_idFilter_eq_none_iff s x).1 hg
      refine ⟨?_, ?_, ?_, ?_, ?_⟩ <;>
        simp [UseCases.getUC, UseCases.updateUC, UseCases.deleteUC,
          InMemoryUserRepository.existsM, hg] <;>
        exact habs
  | some u =>
      obtain ⟨hmem, hid⟩ := get_idFilter_eq_some s x u hg
      have hsome : ¬ (∀ v ∈ s, v.id ≠ x) := fun hall => hall u hmem hid
      refine ⟨?_, ?_, ?_, ?_, ?_⟩ <;>
        simp [UseCases.getUC, UseCases.updateUC, UseCases.deleteUC,
          InMemoryUserRepository.existsM, hg, hsome]

/-- Witness for C4 at a concrete input: on the empty store, the `get` use
case raises `UserNotFound` for `uAlice.id`. -/
theorem use_cases_not_found_iff_absent_witness :
    UseCases.getUC uAlice.id [] = Except.error UseCases.UCError.userNotFound :=
  (use_cases_not_found_iff_absent [] uAlice.id
    { display_name := none, email := none }).1.mpr (by decide)

/-- Claim C5: on a store (no duplicate ids) containing a user `u` with id
`x`, `update(x, input)` succeeds, changes at most the display_name and
email of that user — each only when the corresponding input field is
present — leaves its id and username unchanged, and maps every other
stored user to itself. -/
theorem update_frame (s : List User) (x : ID) (inp : UseCases.UpdateInput) (u : User)
    (hnd : (s.map User.id).Nodup)
    (hget : InMemoryUserRepository.get s (UseCases.idFilter x) = some u) :
    (UseCases.updateUC x inp s).1 = Except.ok (UseCases.applyUpdate inp u) ∧
    (UseCases.updateUC x inp s).2
      = s.map (fun v => if v.id = x then UseCases.applyUpdate inp u else v) ∧
    (UseCases.applyUpdate inp u).id = u.id ∧
    (UseCases.applyUpdate inp u).username = u.username ∧
    (UseCases.applyUpdate inp u).display_name = inp.display_name.getD u.display_name ∧
    (UseCases.applyUpdate inp u).email = inp.email.getD u.email := by
  obtain ⟨hmem, hid⟩ := get_idFilter_eq_some s x u hget
  have hfields : (UseCases.applyUpdate inp u).id = u.id ∧
      (UseCases.applyUpdate inp u).username = u.username ∧
      (UseCases.applyUpdate inp u).display_name = inp.display_name.getD u.display_name ∧
      (UseCases.applyUpdate inp u).email = inp.email.getD u.email := by
    cases hd : inp.display_name <;> cases he : inp.email <;>
      simp [UseCases.applyUpdate, hd, he]
  have hidu : (UseCases.applyUpdate inp u).id = u.id := hfields.1
  have hsave : InMemoryUserRepository.save s (UseCases.applyUpdate inp u)
      = s.map (fun v => if v.id = x then UseCases.applyUpdate inp u else v) := by
    have hm := save_eq_map_of_nodup s (UseCases.applyUpdate inp u) hnd
      ⟨u, hmem, (hidu.symm : u.id = (UseCases.applyUpdate inp u).id)⟩
    rw [hm]
    apply List.map_congr_left
    intro v _
    rw [hidu, hid]
  refine ⟨?_, ?_, hfields⟩
  · simp [UseCases.updateUC, hget]
  · simp [UseCases.updateUC, hget, hsave]

/-- Witness for C5 at a concrete input: updating `uAlice`'s display name
on the store `[uAlice]` succeeds with only the display name changed. -/
theorem update_frame_witness :
    (([uAlice].map User.id).Nodup) ∧
    (InMemoryUserRepository.get [uAlice] (UseCases.idFilter uAlice.id) = some uAlice) ∧
    (UseCases.updateUC uAlice.id { display_name := some "Alicia", email := none }
      [uAlice]).1
      = Except.ok (UseCases.applyUpdate { display_name := some "Alicia", email := none }
          uAlice) :=
  ⟨by decide, by decide,
    (update_frame [uAlice] uAlice.id { display_name := some "Alicia", email := none }
      uAlice (by decide) (by decide)).1⟩

/-- Witness for C10 at a concrete input: the exact dictionary
`{"username": None, "email": None}` built by the endpoint empties the
listing of a two-user store. -/
theorem list_username_none_returns_empty_witness :
    (("username", InMemoryUserRepository.FVal.vnone) ∈
      [("username", InMemoryUserRepository.FVal.vnone),
       ("email", InMemoryUserRepository.FVal.vnone)]) ∧
    InMemoryUserRepository.list [uAlice, uBob]
      [("username", InMemoryUserRepository.FVal.vnone),
       ("email", InMemoryUserRepository.FVal.vnone)] = [] :=
  ⟨by decide,
   list_username_none_returns_empty [uAlice, uBob] _ (by decide)⟩

/-- Claim C3 (code bug): the adapter's docstring says it "uses class-level
storage to mimic shared state across instances", but `delete` assigns
`self.store = [...]`, which creates a shadowing instance attribute. After
`r1.save(uAlice); r1.delete(uAlice.id)` from the process-start state, the
class store still holds `uAlice` and `r1` owns a private empty list, so a
second instance `r2` still observes `uAlice` (it never sees the delete)
while `r1` does not — the two instances no longer read the same backing
sequence. -/
theorem shared_store_broken_by_delete :
    c3World.classStore = [uAlice] ∧
    c3World.inst1 = some [] ∧
    c3World.inst2 = none ∧
    InMemoryUserRepository.get c3World.read2 (UseCases.idFilter uAlice.id)
      = some uAlice ∧
    InMemoryUserRepository.get c3World.read1 (UseCases.idFilter uAlice.id) = none := by
  refine ⟨rfl, rfl, rfl, by decide, by decide⟩

/-- A fresh dictionary key makes the settings `save` a plain append. -/
theorem settings_save_of_fresh (items : InMemorySettingsRepository.Items) (s : Setting)
    (h : ∀ p ∈ items, p.1 ≠ s.id.value) :
    InMemorySettingsRepository.save items s = items ++ [(s.id.value, s)] := by
  induction items with
  | nil => rfl
  | cons p rest ih =>
      obtain ⟨k, v⟩ := p
      have hp : k ≠ s.id.value := h (k, v) (List.mem_cons_self (k, v) rest)
      simp [InMemorySettingsRepository.save, hp,
        ih (fun q hq => h q (List.mem_cons_of_mem (k, v) hq))]

/-- The USER-scope match predicate of the settings scan, spelled out. -/
theorem getMatches_user_iff (k : String) (uid : Option ID) (s : Setting) :
    InMemorySettingsRepository.getMatches SettingsScope.user k uid s = true ↔
      (s.scope = SettingsScope.user ∧ s.key = k ∧ s.user_id = uid) := by
  simp [InMemorySettingsRepository.getMatches, and_assoc]

/-- A prefix on which the scan predicate never hits is skipped by the
settings `get`. -/
theorem settings_get_append_of_no_match (items rest : InMemorySettingsRepository.Items)
    (scope : SettingsScope) (key : String) (uid : Option ID)
    (h : ∀ p ∈ items, ¬ InMemorySettingsRepository.getMatches scope key uid p.2 = true) :
    InMemorySettingsRepository.get (items ++ rest) scope key uid
      = InMemorySettingsRepository.get rest scope key uid := by
  have hnone : List.find? (fun p => InMemorySettingsRepository.getMatches scope key uid p.2)
      items = none := List.find?_eq_none.2 h
  simp [InMemorySettingsRepository.get, List.find?_append, hnone]

/-- Claim C8: two USER-scope `set_setting` calls for the same key but
different owners are retrieved independently. On a settings store holding
no USER-scope setting with key `k` owned by `u1` or `u2`, and with the two
generated ULIDs fresh and distinct, `get_setting` for `u1` returns value
`v1` and `get_setting` for `u2` returns value `v2`. -/
theorem user_settings_no_cross_contamination
    (items : InMemorySettingsRepository.Items) (k v1 v2 : String) (u1 u2 f1 f2 : ID)
    (hu : u1 ≠ u2)
    (hclean : ∀ p ∈ items, ¬ (p.2.scope = SettingsScope.user ∧ p.2.key = k ∧
      (p.2.user_id = some u1 ∨ p.2.user_id = some u2)))
    (hf1 : ∀ p ∈ items, p.1 ≠ f1.value)
    (hf2 : ∀ p ∈ items, p.1 ≠ f2.value)
    (hff : f1.value ≠ f2.value) :
    (UseCases.get_setting
        (UseCases.set_setting
          (UseCases.set_setting items SettingsScope.user k v1 (some u1) f1).2
          SettingsScope.user k v2 (some u2) f2).2
        SettingsScope.user k (some u1)).map Setting.value = some v1 ∧
    (UseCases.get_setting
        (UseCases.set_setting
          (UseCases.set_setting items SettingsScope.user k v1 (some u1) f1).2
          SettingsScope.user k v2 (some u2) f2).2
        SettingsScope.user k (some u2)).map Setting.value = some v2 := by
  have hsave1 : InMemorySettingsRepository.save items (Setting.user f1 u1 k v1)
      = items ++ [(f1.value, Setting.user f1 u1 k v1)] :=
    settings_save_of_fresh items _ hf1
  have hfresh2 : ∀ p ∈ items ++ [(f1.value, Setting.user f1 u1 k v1)],
      p.1 ≠ (Setting.user f2 u2 k v2).id.value := by
    intro p hp
    rcases List.mem_append.1 hp with hin | hone
    · exact hf2 p hin
    · have hpe : p = (f1.value, Setting.user f1 u1 k v1) := by simpa using hone
      rw [hpe]
      exact hff
  have hstep2 : (UseCases.set_setting
        (UseCases.set_setting items SettingsScope.user k v1 (some u1) f1).2
        SettingsScope.user k v2 (some u2) f2).2
      = items ++ [(f1.value, Setting.user f1 u1 k v1),
          (f2.value, Setting.user f2 u2 k v2)] := by
    simp only [UseCases.set_setting]
    rw [hsave1, settings_save_of_fresh _ _ hfresh2]
    simp [Setting.user]
  have hm1 : InMemorySettingsRepository.getMatches SettingsScope.user k (some u1)
      { id := f1, scope := SettingsScope.user, key := k, value := v1,
        user_id := some u1 } = true := by
    simp [InMemorySettingsRepository.getMatches]
  have hm2 : InMemorySettingsRepository.getMatches SettingsScope.user k (some u2)
      { id := f2, scope := SettingsScope.user, key := k, value := v2,
        user_id := some u2 } = true := by
    simp [InMemorySettingsRepository.getMatches]
  have hmiss : InMemorySettingsRepository.getMatches SettingsScope.user k (some u2)
      { id := f1, scope := SettingsScope.user, key := k, value := v1,
        user_id := some u1 } = false := by
    simp [InMemorySettingsRepository.getMatches, hu]
  constructor
  · rw [UseCases.get_setting, hstep2,
      settings_get_append_of_no_match items _ SettingsScope.user k (some u1)
        (by
          intro p hp hmatch
          exact hclean p hp (by
            obtain ⟨ha, hb, hc⟩ := (getMatches_user_iff k (some u1) p.2).1 hmatch
            exact ⟨ha, hb, Or.inl hc⟩))]
    rw [InMemorySettingsRepository.get]
    simp [List.find?, hm1, Setting.user]
  · rw [UseCases.get_setting, hstep2,
      settings_get_append_of_no_match items _ SettingsScope.user k (some u2)
        (by
          intro p hp hmatch
          exact hclean p hp (by
            obtain ⟨ha, hb, hc⟩ := (getMatches_user_iff k (some u2) p.2).1 hmatch
            exact ⟨ha, hb, Or.inr hc⟩))]
    rw [InMemorySettingsRepository.get]
    simp [List.find?, hmiss, hm2, Setting.user]

/-- Witness for C8 at a concrete input: on the empty settings store, with
distinct owners and distinct fresh ULIDs, each owner reads back their own
value. -/
theorem user_settings_no_cross_contamination_witness :
    (UseCases.get_setting
        (UseCases.set_setting
          (UseCases.set_setting [] SettingsScope.user "theme" "light"
            (some { value := "U1" }) { value := "F1" }).2
          SettingsScope.user "theme" "dark" (some { value := "U2" }) { value := "F2" }).2
        SettingsScope.user "theme" (some { value := "U1" })).map Setting.value
      = some "light" ∧
    (UseCases.get_setting
        (UseCases.set_setting
          (UseCases.set_setting [] SettingsScope.user "theme" "light"
            (some { value := "U1" }) { value := "F1" }).2
          SettingsScope.user "theme" "dark" (some { value := "U2" }) { value := "F2" }).2
        SettingsScope.user "theme" (some { value := "U2" })).map Setting.value
      = some "dark" :=
  user_settings_no_cross_contamination [] "theme" "light" "dark"
    { value := "U1" } { value := "U2" } { value := "F1" } { value := "F2" }
    (by decide) (by intro p hp; cases hp) (by intro p hp; cases hp)
    (by intro p hp; cases hp) (by decide)

/-- Claim C9: with 5 saved users, the in-memory `list` with no filter
returns all 5; and the (spec-modelled) `find_all(skip, limit)` pages
partition the record set without overlap or omission: skip=0/limit=2 and
skip=2/limit=2 cover exactly the first 4 records, distinct under the
no-duplicate-ids invariant, and adjacent pages always concatenate to the
exact combined page. -/
theorem pagination_partitions (a b c d e : User)
    (hnd : ([a, b, c, d, e].map User.id).Nodup) :
    InMemoryUserRepository.list [a, b, c, d, e] [] = [a, b, c, d, e] ∧
    ([a, b, c, d, e] : List User).length = 5 ∧
    findAll [a, b, c, d, e] 0 2 = [a, b] ∧
    findAll [a, b, c, d, e] 2 2 = [c, d] ∧
    (findAll [a, b, c, d, e] 0 2 ++ findAll [a, b, c, d, e] 2 2).length = 4 ∧
    ((findAll [a, b, c, d, e] 0 2 ++ findAll [a, b, c, d, e] 2 2).map User.id).Nodup ∧
    (∀ (t : List User) (j n m : Nat),
      findAll t j n ++ findAll t (j + n) m = findAll t j (n + m)) := by
  refine ⟨rfl, rfl, rfl, rfl, rfl, ?_, ?_⟩
  · have hpre : ([a, b, c, d] : List User) <+: [a, b, c, d, e] := ⟨[e], rfl⟩
    exact hnd.sublist (hpre.sublist.map User.id)
  · intro t j n m
    simp only [findAll]
    rw [List.take_add]
    congr 2
    rw [List.drop_drop]

/-- Witness for C9 at a concrete input: five users with distinct ids. -/
theorem pagination_partitions_witness :
    (([uAlice, uBob, uCarol, uDave, uEve].map User.id).Nodup) ∧
    findAll [uAlice, uBob, uCarol, uDave, uEve] 0 2 = [uAlice, uBob] :=
  ⟨by decide,
    (pagination_partitions uAlice uBob uCarol uDave uEve (by decide)).2.2.1⟩

end TruAPI
